import Mathlib

/-!
Verification of the moon-dev-ai-agents repository.

This file gives a shallow embedding, over exact rational arithmetic, of the
parts of the repository that the specification's claims are about:

* `src/agents/whale_agent.py` — the whale-watcher agent: open-interest
  bookkeeping (`_save_oi_data`, `_get_current_oi`, `load_history`), whale
  detection (`_detect_whale_activity`), speech-friendly number formatting
  (`_format_number_for_speech`), announcement formatting (`_format_announcement`)
  and the voice gate in `_announce`.
* `FractalCascade_OPT_v7.py` — fractal detection (`compute_up_fractals`,
  `compute_down_fractals`).
* `T04_KalmanResonance_OPT_v10.py` — the constant-velocity Kalman filter
  (`kalman_velocity_position`) and the Fibonacci levels (`fib_support`,
  `fib_resistance`).
* `T00_SynergisticOscillator_BTFinal_v2.py` — the strategy's per-bar `next`
  logic as a state machine (`soStep`), covering entries, exits and the
  per-position bar counter.

Machine floats are modelled as exact rationals; pandas NaN cells are modelled
with `Option`.
-/

/-- Python's built-in `round` to an integer (round half to even), as used by
`int(round(x))` in the strategy scripts, over exact rationals. -/
def pyRound (x : ℚ) : ℤ :=
  let f := ⌊x⌋
  let frac := x - f
  if frac < 1/2 then f
  else if 1/2 < frac then f + 1
  else if f % 2 = 0 then f else f + 1

/-- Pad a decimal string on the left with zeros up to width `w`. -/
def padZeros (w : ℕ) (s : String) : String :=
  String.mk (List.replicate (w - s.length) '0') ++ s

/-- Python fixed-point formatting `f"{x:.dpf}"` over exact rationals:
round half to even at `dp` decimal places and render with exactly `dp`
fractional digits. -/
def formatFixed (dp : ℕ) (x : ℚ) : String :=
  let n : ℤ := pyRound (x * (10 : ℚ) ^ dp)
  let sign := if n < 0 then "-" else ""
  let m := n.natAbs
  if dp = 0 then sign ++ toString m
  else sign ++ toString (m / 10 ^ dp) ++ "." ++ padZeros dp (toString (m % 10 ^ dp))

/-- Mean of a pandas Series (`Series.mean()`): sum divided by count. -/
def listMean (xs : List ℚ) : ℚ := xs.sum / xs.length

/-- `Series.rolling(window=w).mean().dropna()` applied to the absolute values
of `xs`: the list of means of each full window of `w` consecutive entries. -/
def rollingMeanAbs (xs : List ℚ) (w : ℕ) : List ℚ :=
  (List.range (xs.length + 1 - w)).map
    (fun j => (((xs.drop j).take w).map (fun a => |a|)).sum / w)

/-- `WHALE_THRESHOLD_MULTIPLIER = 1.31` from `whale_agent.py`. -/
def WHALE_THRESHOLD_MULTIPLIER : ℚ := 131 / 100

/-- `WhaleAgent._detect_whale_activity` from `whale_agent.py`: `btcChanges` is
the `btc_change_pct` column of the OI history (one entry per history row).
Returns `false` with fewer than 10 records, otherwise compares
`|currentChange|` against the mean of the 10-period rolling mean of absolute
changes, scaled by the whale threshold multiplier. -/
def detect_whale_activity (btcChanges : List ℚ) (currentChange : ℚ) : Bool :=
  if btcChanges.length < 10 then false
  else
    let historicalChanges := rollingMeanAbs btcChanges 10
    if historicalChanges.isEmpty then false
    else
      let avg_change := listMean historicalChanges
      let threshold := avg_change * WHALE_THRESHOLD_MULTIPLIER
      decide (|currentChange| > threshold)

/-- `compute_up_fractals` from `FractalCascade_OPT_v7.py`: entry `i` holds
`high[i]` when `2 ≤ i < n - 2` and `high[i]` strictly exceeds its two
neighbours on each side, and NaN (`none`) otherwise. -/
def compute_up_fractals (high : List ℚ) : List (Option ℚ) :=
  (List.range high.length).map (fun i =>
    if 2 ≤ i ∧ i + 2 < high.length ∧
        high.getD i 0 > high.getD (i - 1) 0 ∧ high.getD i 0 > high.getD (i - 2) 0 ∧
        high.getD i 0 > high.getD (i + 1) 0 ∧ high.getD i 0 > high.getD (i + 2) 0
    then some (high.getD i 0) else none)

/-- `compute_down_fractals` from `FractalCascade_OPT_v7.py`: dual of
`compute_up_fractals` with strict minima of the lows. -/
def compute_down_fractals (low : List ℚ) : List (Option ℚ) :=
  (List.range low.length).map (fun i =>
    if 2 ≤ i ∧ i + 2 < low.length ∧
        low.getD i 0 < low.getD (i - 1) 0 ∧ low.getD i 0 < low.getD (i - 2) 0 ∧
        low.getD i 0 < low.getD (i + 1) 0 ∧ low.getD i 0 < low.getD (i + 2) 0
    then some (low.getD i 0) else none)

/-- C1: `_detect_whale_activity` returns `True` on a history of at least 10
records exactly when the absolute current change strictly exceeds 1.31 times
the mean of the 10-period rolling mean of the absolute `btc_change_pct`
column, and returns `False` on fewer than 10 records. -/
theorem whale_detection_spec (hist : List ℚ) (c : ℚ) :
    (10 ≤ hist.length →
      (detect_whale_activity hist c = true ↔
        |c| > listMean (rollingMeanAbs hist 10) * WHALE_THRESHOLD_MULTIPLIER)) ∧
    (hist.length < 10 → detect_whale_activity hist c = false) := by
  constructor
  · intro h
    have hlen : ¬ hist.length < 10 := by omega
    have hne : rollingMeanAbs hist 10 ≠ [] := by
      simp only [rollingMeanAbs, ne_eq, List.map_eq_nil_iff, List.range_eq_nil]
      omega
    unfold detect_whale_activity
    rw [if_neg hlen, if_neg (by simp [hne])]
    simp
  · intro h
    unfold detect_whale_activity
    rw [if_pos h]

/-- Witness for C1: a concrete whale history of 10 flat records where a 3%
move is flagged, and a short history where detection is off. -/
theorem whale_detection_spec_witness :
    detect_whale_activity [1,1,1,1,1,1,1,1,1,1] 3 = true ∧
    detect_whale_activity [1,1,1] 3 = false := by
  constructor
  · exact ((whale_detection_spec [1,1,1,1,1,1,1,1,1,1] 3).1 (by norm_num)).mpr
      (by norm_num [listMean, rollingMeanAbs, WHALE_THRESHOLD_MULTIPLIER, List.range_succ])
  · exact (whale_detection_spec [1,1,1] 3).2 (by norm_num)

/-- C4: `compute_up_fractals high` holds `high[i]` at exactly the indices
`2 ≤ i ≤ n - 3` where `high[i]` strictly exceeds `high[i-2]`, `high[i-1]`,
`high[i+1]` and `high[i+2]`, and NaN (`none`) at every other index; dually,
`compute_down_fractals low` holds `low[i]` exactly where `low[i]` is strictly
below the two lows on each side. Both preserve the input length. -/
theorem fractal_detection_spec (high low : List ℚ) (i : ℕ)
    (hup : i < high.length) (hdn : i < low.length) :
    (compute_up_fractals high).length = high.length ∧
    (compute_down_fractals low).length = low.length ∧
    ((compute_up_fractals high).getD i none =
      if 2 ≤ i ∧ i ≤ high.length - 3 ∧
          high.getD i 0 > high.getD (i - 2) 0 ∧ high.getD i 0 > high.getD (i - 1) 0 ∧
          high.getD i 0 > high.getD (i + 1) 0 ∧ high.getD i 0 > high.getD (i + 2) 0
      then some (high.getD i 0) else none) ∧
    ((compute_down_fractals low).getD i none =
      if 2 ≤ i ∧ i ≤ low.length - 3 ∧
          low.getD i 0 < low.getD (i - 2) 0 ∧ low.getD i 0 < low.getD (i - 1) 0 ∧
          low.getD i 0 < low.getD (i + 1) 0 ∧ low.getD i 0 < low.getD (i + 2) 0
      then some (low.getD i 0) else none) := by
  refine ⟨by simp [compute_up_fractals], by simp [compute_down_fractals], ?_, ?_⟩
  · have h1 : (compute_up_fractals high).getD i none =
        (if 2 ≤ i ∧ i + 2 < high.length ∧
            high.getD i 0 > high.getD (i - 1) 0 ∧ high.getD i 0 > high.getD (i - 2) 0 ∧
            high.getD i 0 > high.getD (i + 1) 0 ∧ high.getD i 0 > high.getD (i + 2) 0
        then some (high.getD i 0) else none) := by
      simp [compute_up_fractals, List.getD_eq_getElem?_getD, List.getElem?_map,
        List.getElem?_range, hup]
    rw [h1]
    refine if_congr ?_ rfl rfl
    constructor
    · rintro ⟨a, b, c1, c2, c3, c4⟩
      exact ⟨a, by omega, c2, c1, c3, c4⟩
    · rintro ⟨a, b, c2, c1, c3, c4⟩
      exact ⟨a, by omega, c1, c2, c3, c4⟩
  · have h1 : (compute_down_fractals low).getD i none =
        (if 2 ≤ i ∧ i + 2 < low.length ∧
            low.getD i 0 < low.getD (i - 1) 0 ∧ low.getD i 0 < low.getD (i - 2) 0 ∧
            low.getD i 0 < low.getD (i + 1) 0 ∧ low.getD i 0 < low.getD (i + 2) 0
        then some (low.getD i 0) else none) := by
      simp [compute_down_fractals, List.getD_eq_getElem?_getD, List.getElem?_map,
        List.getElem?_range, hdn]
    rw [h1]
    refine if_congr ?_ rfl rfl
    constructor
    · rintro ⟨a, b, c1, c2, c3, c4⟩
      exact ⟨a, by omega, c2, c1, c3, c4⟩
    · rintro ⟨a, b, c2, c1, c3, c4⟩
      exact ⟨a, by omega, c1, c2, c3, c4⟩

/-- Witness for C4: index 2 of a concrete five-bar series is an up fractal of
the highs and a down fractal of the lows. -/
theorem fractal_detection_spec_witness :
    (compute_up_fractals [0,1,5,2,1]).getD 2 none = some 5 ∧
    (compute_down_fractals [5,3,0,4,6]).getD 2 none = some 0 := by
  have h := fractal_detection_spec [0,1,5,2,1] [5,3,0,4,6] 2 (by norm_num) (by norm_num)
  constructor
  · rw [h.2.2.1]
    norm_num [List.getD]
  · rw [h.2.2.2]
    norm_num [List.getD]

/-- One row of the OI history DataFrame in `whale_agent.py`. Timestamps are
rationals measured in hours. -/
structure OIRow where
  timestamp : ℚ
  btc_oi : ℚ
  eth_oi : ℚ
  total_oi : ℚ
  btc_change_pct : ℚ
  eth_change_pct : ℚ
  total_change_pct : ℚ
  deriving DecidableEq

/-- The 24-hour cleanup shared by `load_history` and `_save_oi_data`:
keep only the rows with `timestamp` strictly after `now - 24` hours. -/
def cleanOld (now : ℚ) (hist : List OIRow) : List OIRow :=
  hist.filter (fun r => decide (now - 24 < r.timestamp))

/-- The append step of `WhaleAgent._save_oi_data`: percentage changes are
computed against the last row (`0.0` each for an empty history), and the
single new row is concatenated. -/
def appendOIRow (hist : List OIRow) (timestamp btc_oi eth_oi total_oi : ℚ) : List OIRow :=
  let row : OIRow :=
    match hist.getLast? with
    | none => ⟨timestamp, btc_oi, eth_oi, total_oi, 0, 0, 0⟩
    | some prev =>
        ⟨timestamp, btc_oi, eth_oi, total_oi,
          ((btc_oi - prev.btc_oi) / prev.btc_oi) * 100,
          ((eth_oi - prev.eth_oi) / prev.eth_oi) * 100,
          ((total_oi - prev.total_oi) / prev.total_oi) * 100⟩
  hist ++ [row]

/-- `WhaleAgent._save_oi_data`: append the new data point, then drop rows
older than 24 hours; the result is both the in-memory history and the CSV
contents written back. -/
def save_oi_data (now : ℚ) (hist : List OIRow) (timestamp btc_oi eth_oi total_oi : ℚ) :
    List OIRow :=
  cleanOld now (appendOIRow hist timestamp btc_oi eth_oi total_oi)

/-- `WhaleAgent.load_history`: `some rows` models a readable history file in
the expected column format; `none` models a missing file or the old format,
both of which yield an empty history. A non-empty history is then filtered
to the last 24 hours and written back to the file. -/
def load_history (now : ℚ) (file : Option (List OIRow)) : List OIRow :=
  let hist := file.getD []
  if hist.isEmpty then hist else cleanOld now hist

/-- One record of the DataFrame returned by `MoonDevAPI.get_oi_data()`. -/
structure APIRecord where
  symbol : String
  time : ℚ
  openInterest : ℚ
  price : ℚ
  deriving DecidableEq

/-- `df[df['symbol'] == sym].iloc[-1]` as used in `_get_current_oi`:
the last record carrying the given symbol, if any. -/
def lastWithSymbol (df : List APIRecord) (sym : String) : Option APIRecord :=
  (df.filter (fun r => r.symbol == sym)).getLast?

/-- `WhaleAgent._get_current_oi`: `df = none` models a failed API call. On a
non-empty DataFrame the latest BTCUSDT and ETHUSDT records are taken, the OI
values are `openInterest * price`, and the point is saved; a missing symbol
raises inside the `try`, which returns `none`. -/
def get_current_oi (now : ℚ) (df : Option (List APIRecord)) (hist : List OIRow) :
    Option (List OIRow) :=
  match df with
  | none => none
  | some l =>
    if l.isEmpty then some hist
    else
      match lastWithSymbol l "BTCUSDT", lastWithSymbol l "ETHUSDT" with
      | some btc_data, some eth_data =>
          let current_time := max btc_data.time eth_data.time
          let btc_oi := btc_data.openInterest * btc_data.price
          let eth_oi := eth_data.openInterest * eth_data.price
          let total_oi := btc_oi + eth_oi
          some (save_oi_data now hist current_time btc_oi eth_oi total_oi)
      | _, _ => none

/-- `WhaleAgent._format_number_for_speech`: render in billions to 4 decimal
places when `number / 1e9` is at least 1, otherwise in millions to 2 decimal
places. -/
def format_number_for_speech (number : ℚ) : String :=
  let billions := number / 1000000000
  if 1 ≤ billions then formatFixed 4 billions ++ " billion"
  else formatFixed 2 (number / 1000000) ++ " million"

/-- C2: every row remaining after `load_history` and after `_save_oi_data`
has a timestamp strictly later than the current time minus 24 hours. -/
theorem rolling_window_invariant (now : ℚ) (file : Option (List OIRow))
    (hist : List OIRow) (ts b e t : ℚ) (r : OIRow) :
    (r ∈ load_history now file → now - 24 < r.timestamp) ∧
    (r ∈ save_oi_data now hist ts b e t → now - 24 < r.timestamp) := by
  constructor
  · intro hr
    simp only [load_history] at hr
    split at hr
    · rcases file with _ | l <;> simp_all
    · simpa using (List.mem_filter.mp hr).2
  · intro hr
    unfold save_oi_data cleanOld at hr
    simpa using (List.mem_filter.mp hr).2

/-- Witness for C2: a concrete row surviving a concrete load and a concrete
save indeed lies inside the 24-hour window. -/
theorem rolling_window_invariant_witness :
    (100 : ℚ) - 24 < (100 : ℚ) ∧ (100 : ℚ) - 24 < (99 : ℚ) := by
  constructor
  · exact (rolling_window_invariant 100 (some [⟨100, 1, 1, 2, 0, 0, 0⟩]) [] 100 1 1 2
      ⟨100, 1, 1, 2, 0, 0, 0⟩).1 (by norm_num [load_history, cleanOld])
  · exact (rolling_window_invariant 100 (some []) [] 99 1 1 2
      ⟨99, 1, 1, 2, 0, 0, 0⟩).2 (by norm_num [save_oi_data, cleanOld, appendOIRow])

/-- C6: a successful poll appends exactly one row whose `btc_oi`/`eth_oi` are
`openInterest * price` of the latest BTCUSDT/ETHUSDT API records, whose
`total_oi` is their sum, and whose change percentages are
`((new - prev) / prev) * 100` against the previous row, or `0.0` for an
empty history. -/
theorem oi_bookkeeping_spec (now : ℚ) (l : List APIRecord) (hist : List OIRow)
    (b e : APIRecord) (hl : l ≠ [])
    (hb : lastWithSymbol l "BTCUSDT" = some b)
    (he : lastWithSymbol l "ETHUSDT" = some e) :
    ∃ row : OIRow,
      get_current_oi now (some l) hist = some (cleanOld now (hist ++ [row])) ∧
      row.timestamp = max b.time e.time ∧
      row.btc_oi = b.openInterest * b.price ∧
      row.eth_oi = e.openInterest * e.price ∧
      row.total_oi = row.btc_oi + row.eth_oi ∧
      (hist = [] → row.btc_change_pct = 0 ∧ row.eth_change_pct = 0 ∧
        row.total_change_pct = 0) ∧
      (∀ prev, hist.getLast? = some prev →
        row.btc_change_pct = ((row.btc_oi - prev.btc_oi) / prev.btc_oi) * 100 ∧
        row.eth_change_pct = ((row.eth_oi - prev.eth_oi) / prev.eth_oi) * 100 ∧
        row.total_change_pct = ((row.total_oi - prev.total_oi) / prev.total_oi) * 100) := by
  have hle : l.isEmpty = false := by simpa using hl
  simp only [get_current_oi, hb, he, hle, Bool.false_eq_true, if_false]
  unfold save_oi_data appendOIRow
  cases hgl : hist.getLast? with
  | none =>
    refine ⟨⟨max b.time e.time, b.openInterest * b.price, e.openInterest * e.price,
      b.openInterest * b.price + e.openInterest * e.price, 0, 0, 0⟩,
      rfl, rfl, rfl, rfl, rfl, fun _ => ⟨rfl, rfl, rfl⟩, ?_⟩
    intro prev hp
    exact Option.noConfusion hp
  | some prev =>
    refine ⟨⟨max b.time e.time, b.openInterest * b.price, e.openInterest * e.price,
      b.openInterest * b.price + e.openInterest * e.price,
      ((b.openInterest * b.price - prev.btc_oi) / prev.btc_oi) * 100,
      ((e.openInterest * e.price - prev.eth_oi) / prev.eth_oi) * 100,
      ((b.openInterest * b.price + e.openInterest * e.price - prev.total_oi) /
        prev.total_oi) * 100⟩,
      rfl, rfl, rfl, rfl, rfl, ?_, ?_⟩
    · intro h
      rw [h] at hgl
      simp at hgl
    · intro p hp
      cases hp
      exact ⟨rfl, rfl, rfl⟩

/-- Witness for C6: a concrete two-record API response appended onto an empty
history. -/
theorem oi_bookkeeping_spec_witness :
    ∃ row : OIRow,
      get_current_oi 100 (some [⟨"BTCUSDT", 1, 2, 3⟩, ⟨"ETHUSDT", 2, 5, 7⟩]) [] =
        some (cleanOld 100 ([] ++ [row])) ∧
      row.timestamp = max (1 : ℚ) 2 ∧
      row.btc_oi = (2 : ℚ) * 3 ∧
      row.eth_oi = (5 : ℚ) * 7 ∧
      row.total_oi = row.btc_oi + row.eth_oi ∧
      (([] : List OIRow) = [] → row.btc_change_pct = 0 ∧ row.eth_change_pct = 0 ∧
        row.total_change_pct = 0) ∧
      (∀ prev, ([] : List OIRow).getLast? = some prev →
        row.btc_change_pct = ((row.btc_oi - prev.btc_oi) / prev.btc_oi) * 100 ∧
        row.eth_change_pct = ((row.eth_oi - prev.eth_oi) / prev.eth_oi) * 100 ∧
        row.total_change_pct = ((row.total_oi - prev.total_oi) / prev.total_oi) * 100) :=
  oi_bookkeeping_spec 100 [⟨"BTCUSDT", 1, 2, 3⟩, ⟨"ETHUSDT", 2, 5, 7⟩] []
    ⟨"BTCUSDT", 1, 2, 3⟩ ⟨"ETHUSDT", 2, 5, 7⟩ (by simp) rfl rfl

/-- C9: `_format_number_for_speech` is total on the rationals and renders in
billions to 4 decimal places exactly when the input is at least `1e9`, and in
millions to 2 decimal places otherwise, including for inputs below one
million and for negative inputs. -/
theorem format_number_for_speech_spec (x : ℚ) :
    (1000000000 ≤ x →
      format_number_for_speech x = formatFixed 4 (x / 1000000000) ++ " billion") ∧
    (x < 1000000000 →
      format_number_for_speech x = formatFixed 2 (x / 1000000) ++ " million") := by
  constructor
  · intro h
    unfold format_number_for_speech
    rw [if_pos]
    rw [le_div_iff₀ (by norm_num : (0:ℚ) < 1000000000), one_mul]
    exact h
  · intro h
    unfold format_number_for_speech
    rw [if_neg]
    rw [le_div_iff₀ (by norm_num : (0:ℚ) < 1000000000), one_mul]
    exact not_le.mpr h

/-- Witness for C9: 2.5e9 is rendered in billions; -3e6 (negative) and 5
(far below one million) are rendered in millions. -/
theorem format_number_for_speech_spec_witness :
    format_number_for_speech 2500000000 =
      formatFixed 4 ((2500000000 : ℚ) / 1000000000) ++ " billion" ∧
    format_number_for_speech (-3000000) =
      formatFixed 2 ((-3000000 : ℚ) / 1000000) ++ " million" ∧
    format_number_for_speech 5 = formatFixed 2 ((5 : ℚ) / 1000000) ++ " million" :=
  ⟨(format_number_for_speech_spec 2500000000).1 (by norm_num),
   (format_number_for_speech_spec (-3000000)).2 (by norm_num),
   (format_number_for_speech_spec 5).2 (by norm_num)⟩

/-- The `changes` dict computed by `WhaleAgent._calculate_changes`. -/
structure Changes where
  btc : ℚ
  interval : ℤ
  start_btc : ℚ
  current_btc : ℚ
  deriving DecidableEq

/-- The parsed result of `WhaleAgent._analyze_opportunity` (an LLM call);
a failed call yields `none` at the use site. -/
structure AIAnalysis where
  action : String
  analysis : String
  confidence : ℤ
  deriving DecidableEq

/-- The base announcement string built by `WhaleAgent._format_announcement`. -/
def baseMessage (c : Changes) : String :=
  "ayo moon dev 777! BTC OI " ++ (if 0 < c.btc then "up" else "down") ++ " " ++
  formatFixed 3 |c.btc| ++ "% in " ++ toString c.interval ++ "m, from " ++
  format_number_for_speech c.start_btc ++ " to " ++ format_number_for_speech c.current_btc

/-- The AI-analysis suffix appended to whale announcements. -/
def analysisSuffix (a : AIAnalysis) : String :=
  " | AI suggests " ++ a.action ++ " with " ++ toString a.confidence ++
  "% confidence. Analysis: " ++ (a.analysis.splitOn "\n").headD "" ++ " 🌙"

/-- `WhaleAgent._format_announcement`: `btcChanges` is the `btc_change_pct`
column used for whale detection, `changes` the output of
`_calculate_changes`, and `analysisResult` the outcome the LLM analysis would
have (it is only requested when the move is a whale). Returns the message (if
any) together with the whale flag. -/
def format_announcement (btcChanges : List ℚ) (changes : Option Changes)
    (analysisResult : Option AIAnalysis) : Option String × Bool :=
  match changes with
  | none => (none, false)
  | some c =>
    let is_whale := detect_whale_activity btcChanges c.btc
    let message := baseMessage c
    let message :=
      if is_whale then
        match analysisResult with
        | some a => message ++ analysisSuffix a
        | none => message
      else message
    (some message, is_whale)

/-- The voice gate of `WhaleAgent._announce`: OpenAI speech synthesis runs
for the message exactly when `is_whale` is set; otherwise the message is only
printed. -/
def announce_synthesizes_speech (is_whale : Bool) : Bool := is_whale

/-- Counterexample to C3 as stated: with a history too short for whale
detection, a monitoring cycle still produces an announcement, but `_announce`
does not synthesize speech for it and the message carries no LLM analysis. -/
theorem narration_channel_counterexample :
    (format_announcement [] (some ⟨1, 5, 100, 101⟩) none).1 =
      some (baseMessage ⟨1, 5, 100, 101⟩) ∧
    (format_announcement [] (some ⟨1, 5, 100, 101⟩) none).2 = false ∧
    announce_synthesizes_speech
      (format_announcement [] (some ⟨1, 5, 100, 101⟩) none).2 = false :=
  ⟨rfl, rfl, rfl⟩

/-- C3 (amended): an announcement is always produced from computed changes,
but speech is synthesized for it if and only if the move is flagged as whale
activity, and the message includes the LLM analysis exactly for whale moves
whose analysis succeeded; otherwise the bare message is announced. -/
theorem narration_channel_amended (btcChanges : List ℚ) (c : Changes)
    (a : AIAnalysis) (ar : Option AIAnalysis) :
    ((format_announcement btcChanges (some c) ar).1).isSome = true ∧
    (announce_synthesizes_speech (format_announcement btcChanges (some c) ar).2 = true ↔
      detect_whale_activity btcChanges c.btc = true) ∧
    (detect_whale_activity btcChanges c.btc = true →
      (format_announcement btcChanges (some c) (some a)).1 =
        some (baseMessage c ++ analysisSuffix a)) ∧
    (detect_whale_activity btcChanges c.btc = false ∨ ar = none →
      (format_announcement btcChanges (some c) ar).1 = some (baseMessage c)) := by
  refine ⟨?_, ?_, ?_, ?_⟩
  · simp [format_announcement]
  · simp [format_announcement, announce_synthesizes_speech]
  · intro h
    simp [format_announcement, h]
  · rintro (h | h)
    · simp [format_announcement, h]
    · rcases hw : detect_whale_activity btcChanges c.btc <;>
        simp [format_announcement, h, hw]

/-- Witness for C3 (amended): a concrete whale move whose announcement gets
speech and carries the analysis, and a concrete quiet move whose announcement
is bare. -/
theorem narration_channel_amended_witness :
    (format_announcement [1,1,1,1,1,1,1,1,1,1] (some ⟨3, 15, 100, 103⟩)
        (some ⟨"BUY", "strong momentum", 90⟩)).1 =
      some (baseMessage ⟨3, 15, 100, 103⟩ ++ analysisSuffix ⟨"BUY", "strong momentum", 90⟩) ∧
    (format_announcement [] (some ⟨1, 5, 100, 101⟩) none).1 =
      some (baseMessage ⟨1, 5, 100, 101⟩) := by
  constructor
  · exact (narration_channel_amended [1,1,1,1,1,1,1,1,1,1] ⟨3, 15, 100, 103⟩
      ⟨"BUY", "strong momentum", 90⟩ (some ⟨"BUY", "strong momentum", 90⟩)).2.2.1
      (by
        unfold detect_whale_activity
        norm_num [listMean, rollingMeanAbs, WHALE_THRESHOLD_MULTIPLIER, List.range_succ])
  · exact (narration_channel_amended [] ⟨1, 5, 100, 101⟩
      ⟨"BUY", "strong momentum", 90⟩ none).2.2.2 (Or.inr rfl)

/-- A 2-vector over the rationals (numpy `array([a, b])`). -/
structure Vec2 where
  v0 : ℚ
  v1 : ℚ
  deriving DecidableEq

/-- A 2×2 matrix over the rationals. -/
structure Mat2 where
  m00 : ℚ
  m01 : ℚ
  m10 : ℚ
  m11 : ℚ
  deriving DecidableEq

def matMul (A B : Mat2) : Mat2 :=
  ⟨A.m00 * B.m00 + A.m01 * B.m10, A.m00 * B.m01 + A.m01 * B.m11,
   A.m10 * B.m00 + A.m11 * B.m10, A.m10 * B.m01 + A.m11 * B.m11⟩

def matAdd (A B : Mat2) : Mat2 :=
  ⟨A.m00 + B.m00, A.m01 + B.m01, A.m10 + B.m10, A.m11 + B.m11⟩

def matSub (A B : Mat2) : Mat2 :=
  ⟨A.m00 - B.m00, A.m01 - B.m01, A.m10 - B.m10, A.m11 - B.m11⟩

def matSmul (c : ℚ) (A : Mat2) : Mat2 := ⟨c * A.m00, c * A.m01, c * A.m10, c * A.m11⟩

def matT (A : Mat2) : Mat2 := ⟨A.m00, A.m10, A.m01, A.m11⟩

def matVec (A : Mat2) (v : Vec2) : Vec2 :=
  ⟨A.m00 * v.v0 + A.m01 * v.v1, A.m10 * v.v0 + A.m11 * v.v1⟩

def vecDot (u v : Vec2) : ℚ := u.v0 * v.v0 + u.v1 * v.v1

def vecAdd (u v : Vec2) : Vec2 := ⟨u.v0 + v.v0, u.v1 + v.v1⟩

def vecSmul (c : ℚ) (v : Vec2) : Vec2 := ⟨c * v.v0, c * v.v1⟩

/-- `np.outer(u, v)` for 2-vectors. -/
def outerProd (u v : Vec2) : Mat2 :=
  ⟨u.v0 * v.v0, u.v0 * v.v1, u.v1 * v.v0, u.v1 * v.v1⟩

def eye2 : Mat2 := ⟨1, 0, 0, 1⟩

/-- Transition matrix `F = [[1, dt], [0, 1]]` with `dt = 1`. -/
def Fmat : Mat2 := ⟨1, 1, 0, 1⟩

/-- Observation vector `H = [1, 0]`. -/
def Hvec : Vec2 := ⟨1, 0⟩

/-- Process-noise shape `Q_base = [[dt³/3, dt²/2], [dt²/2, dt]]` with `dt = 1`. -/
def Qbase : Mat2 := ⟨1/3, 1/2, 1/2, 1⟩

/-- Kalman filter state: mean `x` and covariance `P`. -/
structure KState where
  x : Vec2
  P : Mat2
  deriving DecidableEq

/-- The loop body of `kalman_velocity_position` (one predict–update step of
the constant-velocity filter with process noise `q * Qbase` and measurement
noise `r`), translated operation by operation from the Python source. -/
def kalmanStep (q r : ℚ) (st : KState) (z : ℚ) : KState :=
  let x1 := matVec Fmat st.x
  let P1 := matAdd (matMul (matMul Fmat st.P) (matT Fmat)) (matSmul q Qbase)
  let y := z - vecDot Hvec x1
  let S := vecDot Hvec (matVec P1 Hvec) + r
  let K := vecSmul (1 / S) (matVec P1 Hvec)
  let x2 := vecAdd x1 (vecSmul y K)
  let P2 := matMul (matSub eye2 (outerProd K Hvec)) P1
  ⟨x2, P2⟩

/-- Initial state of the filter: `x = [close[0], 0]`, `P = 1000 * I`. -/
def kalmanInit (c0 : ℚ) : KState := ⟨⟨c0, 0⟩, matSmul 1000 eye2⟩

/-- The accumulation loop of `kalman_velocity_position`: the list of
`(filtered[i], velocity[i])` pairs. -/
def kalmanRun (q r : ℚ) : KState → List ℚ → List (ℚ × ℚ)
  | _, [] => []
  | st, z :: zs =>
    let st1 := kalmanStep q r st z
    (st1.x.v0, st1.x.v1) :: kalmanRun q r st1 zs

/-- `kalman_velocity_position` from `T04_KalmanResonance_OPT_v10.py`:
returns the `filtered` (position) and `velocity` arrays, and two empty
arrays for empty input. -/
def kalman_velocity_position (close : List ℚ) (q r : ℚ) : List ℚ × List ℚ :=
  match close with
  | [] => ([], [])
  | c0 :: _ =>
    let outs := kalmanRun q r (kalmanInit c0) close
    (outs.map Prod.fst, outs.map Prod.snd)

/-- The claim's reference filter: the state after consuming the first `k`
observations, iterating the predict–update step from the initial state. -/
def kalmanStateAfter (close : List ℚ) (q r : ℚ) (k : ℕ) : KState :=
  List.foldl (kalmanStep q r) (kalmanInit (close.headD 0)) (close.take k)

theorem kalmanRun_length (q r : ℚ) (st : KState) (zs : List ℚ) :
    (kalmanRun q r st zs).length = zs.length := by
  induction zs generalizing st with
  | nil => rfl
  | cons z zs ih => simp [kalmanRun, ih]

theorem kalmanRun_getD (q r : ℚ) (zs : List ℚ) :
    ∀ (st : KState) (i : ℕ), i < zs.length →
      (kalmanRun q r st zs).getD i (0, 0) =
        ((List.foldl (kalmanStep q r) st (zs.take (i + 1))).x.v0,
         (List.foldl (kalmanStep q r) st (zs.take (i + 1))).x.v1) := by
  induction zs with
  | nil =>
    intro st i h
    simp at h
  | cons z zs ih =>
    intro st i h
    cases i with
    | zero => simp [kalmanRun]
    | succ j =>
      rw [List.take_succ_cons, List.foldl_cons]
      show (kalmanRun q r st (z :: zs)).getD (j + 1) (0, 0) = _
      rw [show kalmanRun q r st (z :: zs) =
        (let st1 := kalmanStep q r st z
         (st1.x.v0, st1.x.v1) :: kalmanRun q r st1 zs) from rfl]
      rw [List.getD_cons_succ]
      exact ih (kalmanStep q r st z) j (by simpa using h)

theorem getD_map_fst (l : List (ℚ × ℚ)) (i : ℕ) (h : i < l.length) :
    (l.map Prod.fst).getD i 0 = (l.getD i (0, 0)).1 := by
  rw [List.getD_eq_getElem?_getD, List.getD_eq_getElem?_getD, List.getElem?_map,
    List.getElem?_eq_getElem h]
  rfl

theorem getD_map_snd (l : List (ℚ × ℚ)) (i : ℕ) (h : i < l.length) :
    (l.map Prod.snd).getD i 0 = (l.getD i (0, 0)).2 := by
  rw [List.getD_eq_getElem?_getD, List.getD_eq_getElem?_getD, List.getElem?_map,
    List.getElem?_eq_getElem h]
  rfl

/-- C5: `kalman_velocity_position` maps empty input to two empty arrays and
otherwise returns two arrays of the input's length whose `i`-th entries are
the position and velocity components of the filter state after `i + 1`
predict–update steps from the initial state `(close[0], 0)` with covariance
`1000·I`. -/
theorem kalman_filter_spec (close : List ℚ) (q r : ℚ) (i : ℕ) (hi : i < close.length) :
    kalman_velocity_position [] q r = ([], []) ∧
    (kalman_velocity_position close q r).1.length = close.length ∧
    (kalman_velocity_position close q r).2.length = close.length ∧
    (kalman_velocity_position close q r).1.getD i 0 =
      (kalmanStateAfter close q r (i + 1)).x.v0 ∧
    (kalman_velocity_position close q r).2.getD i 0 =
      (kalmanStateAfter close q r (i + 1)).x.v1 := by
  obtain ⟨c0, rest, rfl⟩ : ∃ c0 rest, close = c0 :: rest := by
    cases close with
    | nil => simp at hi
    | cons a l => exact ⟨a, l, rfl⟩
  have hlen : i < (kalmanRun q r (kalmanInit c0) (c0 :: rest)).length := by
    rw [kalmanRun_length]
    exact hi
  refine ⟨rfl, ?_, ?_, ?_, ?_⟩
  · show ((kalmanRun q r (kalmanInit c0) (c0 :: rest)).map Prod.fst).length = _
    rw [List.length_map, kalmanRun_length]
  · show ((kalmanRun q r (kalmanInit c0) (c0 :: rest)).map Prod.snd).length = _
    rw [List.length_map, kalmanRun_length]
  · show ((kalmanRun q r (kalmanInit c0) (c0 :: rest)).map Prod.fst).getD i 0 = _
    rw [getD_map_fst _ _ hlen, kalmanRun_getD q r _ _ _ hi]
    rfl
  · show ((kalmanRun q r (kalmanInit c0) (c0 :: rest)).map Prod.snd).getD i 0 = _
    rw [getD_map_snd _ _ hlen, kalmanRun_getD q r _ _ _ hi]
    rfl

/-- Witness for C5: the two-bar series `[10, 12]` at `q = 1`, `r = 1`,
checked at index 1. -/
theorem kalman_filter_spec_witness :
    kalman_velocity_position [] 1 1 = ([], []) ∧
    (kalman_velocity_position [10, 12] 1 1).1.length = ([10, 12] : List ℚ).length ∧
    (kalman_velocity_position [10, 12] 1 1).2.length = ([10, 12] : List ℚ).length ∧
    (kalman_velocity_position [10, 12] 1 1).1.getD 1 0 =
      (kalmanStateAfter [10, 12] 1 1 2).x.v0 ∧
    (kalman_velocity_position [10, 12] 1 1).2.getD 1 0 =
      (kalmanStateAfter [10, 12] 1 1 2).x.v1 :=
  kalman_filter_spec [10, 12] 1 1 1 (by norm_num)

/-- `Series.rolling(p).max()` with the default `min_periods = p`: entry `i`
holds the maximum of the window of `p` values ending at `i` once `p` values
are available, and NaN (`none`) before that. -/
def rollingMax (xs : List ℚ) (p : ℕ) : List (Option ℚ) :=
  (List.range xs.length).map (fun i =>
    if p ≠ 0 ∧ p ≤ i + 1 then ((xs.drop (i + 1 - p)).take p).max? else none)

/-- `Series.rolling(p).min()` with the default `min_periods = p`. -/
def rollingMin (xs : List ℚ) (p : ℕ) : List (Option ℚ) :=
  (List.range xs.length).map (fun i =>
    if p ≠ 0 ∧ p ≤ i + 1 then ((xs.drop (i + 1 - p)).take p).min? else none)

/-- `fib_support` from `T04_KalmanResonance_OPT_v10.py`:
`hh - 0.618 * (hh - ll)` pointwise on the rolling extrema, NaN-propagating
(`0.618 = 309/500` exactly). -/
def fib_support (high low : List ℚ) (period : ℕ) : List (Option ℚ) :=
  List.zipWith (fun hh ll =>
      match hh, ll with
      | some hh, some ll => some (hh - 309/500 * (hh - ll))
      | _, _ => none)
    (rollingMax high period) (rollingMin low period)

/-- `fib_resistance` from `T04_KalmanResonance_OPT_v10.py`:
`ll + 0.618 * (hh - ll)` pointwise on the rolling extrema, NaN-propagating. -/
def fib_resistance (high low : List ℚ) (period : ℕ) : List (Option ℚ) :=
  List.zipWith (fun hh ll =>
      match hh, ll with
      | some hh, some ll => some (ll + 309/500 * (hh - ll))
      | _, _ => none)
    (rollingMax high period) (rollingMin low period)

/-- Counterexample to C10 as stated: the claim quantifies over every pair of
series, but for `high = [0]`, `low = [1]` (a candle with its low above its
high, impossible in OHLC data yet allowed by the claim's quantifier) the
support level 0.618 strictly exceeds the resistance level 0.382. -/
theorem fib_duality_counterexample :
    (fib_support [0] [1] 1).getD 0 none = some (309/500) ∧
    (fib_resistance [0] [1] 1).getD 0 none = some (191/500) ∧
    ¬ ((309 : ℚ)/500 ≤ 191/500) := by
  refine ⟨?_, ?_, by norm_num⟩ <;>
    norm_num [fib_support, fib_resistance, rollingMax, rollingMin, List.range_succ,
      List.max?, List.min?]

/-- C10 (amended): at every index where the rolling extrema are defined with
values `hh` and `ll`, `fib_support + fib_resistance = hh + ll` holds
unconditionally; and whenever `ll ≤ hh` (as for genuine OHLC data, where each
high is at least the corresponding low), `fib_support ≤ fib_resistance`, with
equality exactly when the rolling max equals the rolling min. -/
theorem fib_duality_amended (high low : List ℚ) (p i : ℕ) (hh ll : ℚ)
    (hmax : (rollingMax high p).getD i none = some hh)
    (hmin : (rollingMin low p).getD i none = some ll) :
    (fib_support high low p).getD i none = some (hh - 309/500 * (hh - ll)) ∧
    (fib_resistance high low p).getD i none = some (ll + 309/500 * (hh - ll)) ∧
    (hh - 309/500 * (hh - ll)) + (ll + 309/500 * (hh - ll)) = hh + ll ∧
    (ll ≤ hh → hh - 309/500 * (hh - ll) ≤ ll + 309/500 * (hh - ll)) ∧
    (ll ≤ hh → (hh - 309/500 * (hh - ll) = ll + 309/500 * (hh - ll) ↔ hh = ll)) := by
  have h1 : (rollingMax high p)[i]? = some (some hh) := by
    rw [List.getD_eq_getElem?_getD] at hmax
    cases h : (rollingMax high p)[i]? with
    | none => rw [h] at hmax; simp at hmax
    | some o => rw [h] at hmax; simp at hmax; rw [hmax]
  have h2 : (rollingMin low p)[i]? = some (some ll) := by
    rw [List.getD_eq_getElem?_getD] at hmin
    cases h : (rollingMin low p)[i]? with
    | none => rw [h] at hmin; simp at hmin
    | some o => rw [h] at hmin; simp at hmin; rw [hmin]
  have h3 : (fib_support high low p)[i]? = some (some (hh - 309/500 * (hh - ll))) :=
    List.getElem?_zipWith_eq_some.mpr ⟨some hh, some ll, h1, h2, rfl⟩
  have h4 : (fib_resistance high low p)[i]? = some (some (ll + 309/500 * (hh - ll))) :=
    List.getElem?_zipWith_eq_some.mpr ⟨some hh, some ll, h1, h2, rfl⟩
  refine ⟨?_, ?_, by ring, fun h => by linarith, fun h => ?_⟩
  · rw [List.getD_eq_getElem?_getD, h3]
    rfl
  · rw [List.getD_eq_getElem?_getD, h4]
    rfl
  · constructor
    · intro heq
      linarith
    · intro heq
      rw [heq]
      ring

/-- Witness for C10 (amended): `high = [2, 4]`, `low = [1, 3]`, period 2 at
index 1, where the rolling max is 4 and the rolling min is 1. -/
theorem fib_duality_amended_witness :
    (fib_support [2, 4] [1, 3] 2).getD 1 none = some ((4 : ℚ) - 309/500 * (4 - 1)) ∧
    (fib_resistance [2, 4] [1, 3] 2).getD 1 none = some ((1 : ℚ) + 309/500 * (4 - 1)) ∧
    ((4 : ℚ) - 309/500 * (4 - 1)) + (1 + 309/500 * (4 - 1)) = 4 + 1 ∧
    ((1 : ℚ) ≤ 4 → (4 : ℚ) - 309/500 * (4 - 1) ≤ 1 + 309/500 * (4 - 1)) ∧
    ((1 : ℚ) ≤ 4 → ((4 : ℚ) - 309/500 * (4 - 1) = 1 + 309/500 * (4 - 1) ↔ (4 : ℚ) = 1)) :=
  fib_duality_amended [2, 4] [1, 3] 2 1 4 1
    (by norm_num [rollingMax, List.range_succ, List.max?, max_def])
    (by norm_num [rollingMin, List.range_succ, List.min?, min_def])

/-- Per-bar inputs read by `SynergisticOscillator.next`: the last two values
of StochRSI %K and %D, latest close, 50-period SMA, the volume oscillator
(5-period minus 34-period volume SMA) now and one bar ago, the 14-period ATR,
the account equity, and whether the broker's stop-loss fires on this bar. -/
structure SOBar where
  k1 : ℚ
  k2 : ℚ
  d1 : ℚ
  d2 : ℚ
  close : ℚ
  sma : ℚ
  voscNow : ℚ
  voscPrev : ℚ
  atr : ℚ
  equity : ℚ
  slHit : Bool
  deriving DecidableEq

/-- An open position: `backtesting.py`'s signed `position.size` split into a
direction flag and a positive magnitude. -/
structure SOPos where
  isLong : Bool
  size : ℤ
  deriving DecidableEq

/-- The mutable state of `SynergisticOscillator` between calls of `next`:
the open position (if any), the `pos_bars` counter, and the flag recording a
taken partial profit. -/
structure SOState where
  pos : Option SOPos
  posBars : ℕ
  halfTaken : Bool
  deriving DecidableEq

/-- The order activity of one call of `next`. -/
inductive SOAction where
  | timeExit
  | smaExit
  | crossExit
  | halfProfit (n : ℤ)
  | enterLong (size : ℤ) (sl : ℚ)
  | enterShort (size : ℤ) (sl : ℚ)
  | hold
  deriving DecidableEq

/-- `SynergisticOscillator.next` as a step function. With a position open the
bar counter is bumped, then the exits run in source order: the 10-bar time
exit, the SMA exit, the opposite StochRSI crossover exit, and the one-off
partial profit (which does nothing when half the position rounds to zero).
With no position, the long entry (`%K` crossing above `%D`, both below 20,
close above the SMA, volume oscillator positive or rising) is checked and
then the mirrored short entry; the Python source checks both entry blocks
sequentially, and their crossover guards (`k1 > d1` versus `k1 < d1`) are
mutually exclusive, so the if/else chain below is equivalent. An order is
submitted only when the risk-sized position rounds to a positive size. -/
def soStep (s : SOState) (b : SOBar) : SOState × SOAction :=
  match s.pos with
  | some p =>
    let pb := if s.posBars = 0 then 1 else s.posBars + 1
    if 10 ≤ pb then (⟨none, 0, false⟩, .timeExit)
    else if p.isLong then
      if b.close < b.sma then (⟨none, 0, false⟩, .smaExit)
      else if b.k1 < b.d1 ∧ b.d2 ≤ b.k2 then (⟨none, 0, false⟩, .crossExit)
      else if ¬ s.halfTaken ∧ 80 ≤ b.k1 then
        let n := pyRound ((p.size : ℚ) / 2)
        if 0 < n then (⟨some ⟨true, p.size - n⟩, pb, true⟩, .halfProfit n)
        else (⟨s.pos, pb, s.halfTaken⟩, .hold)
      else (⟨s.pos, pb, s.halfTaken⟩, .hold)
    else
      if b.sma < b.close then (⟨none, 0, false⟩, .smaExit)
      else if b.d1 < b.k1 ∧ b.k2 ≤ b.d2 then (⟨none, 0, false⟩, .crossExit)
      else if ¬ s.halfTaken ∧ b.k1 ≤ 20 then
        let n := pyRound ((p.size : ℚ) / 2)
        if 0 < n then (⟨some ⟨false, p.size - n⟩, pb, true⟩, .halfProfit n)
        else (⟨s.pos, pb, s.halfTaken⟩, .hold)
      else (⟨s.pos, pb, s.halfTaken⟩, .hold)
  | none =>
    let size := pyRound (1/100 * b.equity / (3/2 * b.atr))
    if b.d1 < b.k1 ∧ b.k2 ≤ b.d2 ∧ b.k1 < 20 ∧ b.d1 < 20 ∧ b.sma < b.close ∧
        (0 < b.voscNow ∨ b.voscPrev < b.voscNow) then
      if 0 < size then
        (⟨some ⟨true, size⟩, 0, false⟩, .enterLong size (b.close - 3/2 * b.atr))
      else (s, .hold)
    else if b.k1 < b.d1 ∧ b.d2 ≤ b.k2 ∧ 80 < b.k1 ∧ 80 < b.d1 ∧ b.close < b.sma ∧
        (b.voscNow < 0 ∨ b.voscNow < b.voscPrev) then
      if 0 < size then
        (⟨some ⟨false, size⟩, 0, false⟩, .enterShort size (b.close + 3/2 * b.atr))
      else (s, .hold)
    else (s, .hold)

/-- The broker processes stop-loss orders at the bar open, before `next`
runs: a triggered stop removes the position (leaving `pos_bars` and
`partialed` untouched, as in the source). -/
def applySL (s : SOState) (b : SOBar) : SOState :=
  if b.slHit && s.pos.isSome then { s with pos := none } else s

/-- The state as of the start of the following call of `next`. -/
def soNext (s : SOState) (b : SOBar) : SOState := (soStep (applySL s b) b).1

/-- The order activity of the call of `next` on bar `b`. -/
def soAct (s : SOState) (b : SOBar) : SOAction := (soStep (applySL s b) b).2

/-- The position is open at the start of every call of `next` along `bs`. -/
def heldRun : SOState → List SOBar → Bool
  | _, [] => true
  | s, b :: rest => (applySL s b).pos.isSome && heldRun (soNext s b) rest

/-- Counter invariant: whenever a position is open at the start of a call the
bar counter is at most 9. -/
def soInv (s : SOState) : Prop := s.pos.isSome = true → s.posBars ≤ 9

theorem applySL_posBars (s : SOState) (b : SOBar) : (applySL s b).posBars = s.posBars := by
  unfold applySL
  split <;> rfl

theorem applySL_pos_some (s : SOState) (b : SOBar)
    (h : (applySL s b).pos.isSome = true) : s.pos.isSome = true := by
  unfold applySL at h
  split at h <;> simp_all

theorem applySL_inv (s : SOState) (b : SOBar) (hs : soInv s) : soInv (applySL s b) := by
  intro h
  rw [applySL_posBars]
  exact hs (applySL_pos_some s b h)

theorem soStep_preserves_inv (s : SOState) (b : SOBar) (hs : soInv s) :
    soInv (soStep s b).1 := by
  cases hp : s.pos with
  | none =>
    simp only [soStep, hp]
    split_ifs <;> simp [soInv, hp]
  | some p =>
    have hpb : s.posBars ≤ 9 := hs (by rw [hp]; rfl)
    have hb : (if s.posBars = 0 then 1 else s.posBars + 1) = s.posBars + 1 := by
      split <;> omega
    simp only [soStep, hp, hb]
    split_ifs <;> simp [soInv] <;> omega

theorem soStep_posBars_of_kept (s : SOState) (b : SOBar) (p : SOPos)
    (hp : s.pos = some p) (h2 : (soStep s b).1.pos.isSome = true) :
    (soStep s b).1.posBars = s.posBars + 1 := by
  have hb : (if s.posBars = 0 then 1 else s.posBars + 1) = s.posBars + 1 := by
    split <;> omega
  simp only [soStep, hp, hb] at h2 ⊢
  split_ifs at h2 ⊢ <;> simp_all

theorem heldRun_le (bs : List SOBar) : ∀ s, soInv s → heldRun s bs = true →
    bs = [] ∨ bs.length + s.posBars ≤ 10 := by
  induction bs with
  | nil =>
    intro s _ _
    exact Or.inl rfl
  | cons b rest ih =>
    intro s hs hh
    right
    simp only [heldRun, Bool.and_eq_true] at hh
    obtain ⟨h1, h2⟩ := hh
    have hval : s.posBars ≤ 9 := by
      have := applySL_inv s b hs h1
      rwa [applySL_posBars] at this
    cases rest with
    | nil => simpa using by omega
    | cons b' rest' =>
      have hinv' : soInv (soNext s b) :=
        soStep_preserves_inv (applySL s b) b (applySL_inv s b hs)
      rcases ih (soNext s b) hinv' h2 with h | h
      · cases h
      · have hkept : (soNext s b).pos.isSome = true := by
          simp only [heldRun, Bool.and_eq_true] at h2
          exact applySL_pos_some _ _ h2.1
        obtain ⟨p, hp⟩ : ∃ p, (applySL s b).pos = some p :=
          Option.isSome_iff_exists.mp h1
        have hbars : (soNext s b).posBars = (applySL s b).posBars + 1 :=
          soStep_posBars_of_kept (applySL s b) b p hp hkept
        rw [applySL_posBars] at hbars
        rw [hbars] at h
        simp only [List.length_cons] at h ⊢
        omega

/-- C8: the bar-counter invariant holds in the initial state and is preserved
by every call of `next`, under it a position is never held across more than
10 calls of `next`, and whenever the bar counter reaches 10 with a position
open the call performs the time exit before any other exit or entry rule. -/
theorem holding_time_limit :
    soInv ⟨none, 0, false⟩ ∧
    (∀ s b, soInv s → soInv (soNext s b)) ∧
    (∀ s bs, soInv s → heldRun s bs = true → bs.length ≤ 10) ∧
    (∀ s b, (applySL s b).pos.isSome = true →
      10 ≤ (applySL s b).posBars + 1 → soAct s b = SOAction.timeExit) := by
  refine ⟨by simp [soInv], ?_, ?_, ?_⟩
  · intro s b hs
    exact soStep_preserves_inv (applySL s b) b (applySL_inv s b hs)
  · intro s bs hs hh
    rcases heldRun_le bs s hs hh with h | h
    · simp [h]
    · omega
  · intro s b h1 h2
    obtain ⟨p, hp⟩ : ∃ p, (applySL s b).pos = some p :=
      Option.isSome_iff_exists.mp h1
    have hb : (if (applySL s b).posBars = 0 then 1 else (applySL s b).posBars + 1) =
        (applySL s b).posBars + 1 := by
      split <;> omega
    unfold soAct
    simp only [soStep, hp, hb]
    rw [if_pos h2]

/-- Witness for C8: a concrete held long keeps the invariant over a bar, a
concrete three-bar held run respects the limit, and a position whose counter
reaches 10 is time-exited. -/
theorem holding_time_limit_witness :
    soInv (soNext ⟨some ⟨true, 5⟩, 4, false⟩
      ⟨50, 50, 50, 50, 100, 90, 1, 0, 2, 1000000, false⟩) ∧
    ([⟨50, 50, 50, 50, 100, 90, 1, 0, 2, 1000000, false⟩,
      ⟨50, 50, 50, 50, 100, 90, 1, 0, 2, 1000000, false⟩,
      ⟨50, 50, 50, 50, 100, 90, 1, 0, 2, 1000000, false⟩] : List SOBar).length ≤ 10 ∧
    soAct ⟨some ⟨true, 5⟩, 9, false⟩
      ⟨50, 50, 50, 50, 100, 90, 1, 0, 2, 1000000, false⟩ = SOAction.timeExit := by
  refine ⟨?_, ?_, ?_⟩
  · exact holding_time_limit.2.1 ⟨some ⟨true, 5⟩, 4, false⟩
      ⟨50, 50, 50, 50, 100, 90, 1, 0, 2, 1000000, false⟩ (by intro _; norm_num)
  · exact holding_time_limit.2.2.1 ⟨some ⟨true, 5⟩, 4, false⟩ _
      (by intro _; norm_num) (by decide)
  · exact holding_time_limit.2.2.2 ⟨some ⟨true, 5⟩, 9, false⟩
      ⟨50, 50, 50, 50, 100, 90, 1, 0, 2, 1000000, false⟩ (by decide) (by decide)

/-- C7: with no position open, `next` submits a long order exactly when
StochRSI %K crosses above %D on the bar, both %K and %D are below 20, the
close is above the 50-period SMA, the volume oscillator is positive or above
its previous value, and `round(0.01·equity / (1.5·ATR))` is positive; the
order then carries that size and a stop-loss at `close − 1.5·ATR`. -/
theorem long_entry_spec (s : SOState) (b : SOBar) (h : s.pos = none) :
    ((∃ sz sl, (soStep s b).2 = SOAction.enterLong sz sl) ↔
      (b.k1 > b.d1 ∧ b.k2 ≤ b.d2 ∧ b.k1 < 20 ∧ b.d1 < 20 ∧ b.close > b.sma ∧
        (b.voscNow > 0 ∨ b.voscNow > b.voscPrev) ∧
        0 < pyRound (1/100 * b.equity / (3/2 * b.atr)))) ∧
    (∀ sz sl, (soStep s b).2 = SOAction.enterLong sz sl →
      sz = pyRound (1/100 * b.equity / (3/2 * b.atr)) ∧
      sl = b.close - 3/2 * b.atr) := by
  simp only [soStep, h]
  split_ifs with hc1 hc2 hc3 hc4 <;>
    simp_all [SOAction.enterLong.injEq]

/-- Witness for C7: a concrete oversold crossover bar in an uptrend with
rising volume and one-million equity produces a long order. -/
theorem long_entry_spec_witness :
    ∃ sz sl, (soStep ⟨none, 0, false⟩
        ⟨10, 5, 9, 6, 100, 90, 1, 0, 2, 1000000, false⟩).2 =
      SOAction.enterLong sz sl :=
  ((long_entry_spec ⟨none, 0, false⟩
      ⟨10, 5, 9, 6, 100, 90, 1, 0, 2, 1000000, false⟩ rfl).1).mpr
    (by norm_num [pyRound])
